import Mathlib

/-!
Shallow embedding of the question-generation / exam-evaluation core of
`app.py` (functions `generate_questions` and `evaluate_exam_answers`, and
the Take-Exam submit handler), together with theorems settling the spec
claims about it.

Modelling conventions:
* Python strings are `List Char`; `str.strip` is `pyStrip`, `str.upper` is
  `pyUpper` (ASCII case mapping), `str.find`/`str.rfind` are
  `pyFind`/`pyRFind` returning `-1` on absence exactly as in Python.
* Python numbers (`marks`, model-returned `marks_obtained`) are exact
  rationals `Rat`; the literal `0.6` denotes `3/5`.
* `json.loads` is an external library collaborator: it is a parameter
  `decode : List Char → Option Json`, `none` meaning the decoder raised.
* The generative-model call is a collaborator; an evaluation run is
  parametrised by the outcome of the batch grading call (`GradingOutcome`).
* Dictionary entries built with optional keys become `Option`-valued
  fields, `none` meaning the key is absent.
-/

/-- Python `str.strip()`: drop whitespace from both ends. -/
def pyStrip (s : List Char) : List Char :=
  ((s.dropWhile Char.isWhitespace).reverse.dropWhile Char.isWhitespace).reverse

/-- Python `str.upper()` restricted to the ASCII letters that occur in
answer keys. -/
def pyUpper (s : List Char) : List Char :=
  s.map Char.toUpper

/-- Python `str.find(c)`: index of the first occurrence of `c`, `-1` when
absent. -/
def pyFind (c : Char) : List Char → Int
  | [] => -1
  | a :: rest =>
      if a = c then 0
      else
        let r := pyFind c rest
        if r = -1 then -1 else r + 1

/-- Python `str.rfind(c)`: index of the last occurrence of `c`, `-1` when
absent. -/
def pyRFind (c : Char) : List Char → Int
  | [] => -1
  | a :: rest =>
      let r := pyRFind c rest
      if r = -1 then (if a = c then 0 else -1) else r + 1

/-- Python slice `s[a:b]` for the non-negative indices used here. -/
def pySlice (s : List Char) (a b : Int) : List Char :=
  (s.take b.toNat).drop a.toNat

/-- JSON values, as produced by the decoder collaborator. -/
inductive Json where
  | null : Json
  | bool : Bool → Json
  | num : Rat → Json
  | str : List Char → Json
  | arr : List Json → Json
  | obj : List (List Char × Json) → Json

/-- Subscripting `data[key]` on a decoded JSON value: `none` models the
`KeyError`/`TypeError` raised when the key is missing or the value is not
an object. -/
def jsonGet (key : List Char) : Json → Option Json
  | Json.obj fields => fields.lookup key
  | _ => none

/-- The later indexing `questions_data[quote questions quote]` performed by
the Take-Exam page and by `evaluate_exam_answers`. -/
def getQuestions (data : Json) : Option Json :=
  jsonGet (("questions").data) data

/-- The JSON-extraction block used at both parse sites (`generate_questions`
and `evaluate_exam_answers`): if the text contains a brace of each kind,
slice from the first opening brace to the last closing brace inclusive and
hand exactly that slice to the decoder; otherwise fail. -/
def extractJson (decode : List Char → Option Json) (response_text : List Char) :
    Option Json :=
  if response_text.contains '{' && response_text.contains '}' then
    let json_start := pyFind '{' response_text
    let json_end := pyRFind '}' response_text + 1
    let json_text := pySlice response_text json_start json_end
    decode json_text
  else none

/-- Index of the first occurrence of a character, written as the spec
describes it. -/
def firstIdx (c : Char) : List Char → Option Nat
  | [] => none
  | a :: rest => if a = c then some 0 else (firstIdx c rest).map (fun n => n + 1)

/-- Index of the last occurrence of a character, written as the spec
describes it. -/
def lastIdx (c : Char) : List Char → Option Nat
  | [] => none
  | a :: rest =>
      match lastIdx c rest with
      | some k => some (k + 1)
      | none => if a = c then some 0 else none

/-- Modelled from the spec words for the parser: the slice from the first
opening brace to the last closing brace, inclusive. -/
def braceSlice_spec (s : List Char) : List Char :=
  match firstIdx '{' s, lastIdx '}' s with
  | some i, some j => (s.take (j + 1)).drop i
  | _, _ => []

/-- Modelled from the spec words for the parser: locate the first opening
brace and the last closing brace, slice between them inclusive, and attempt
strict decoding of the slice; fail when either brace is absent or decoding
fails. -/
def extractJson_spec (decode : List Char → Option Json) (s : List Char) :
    Option Json :=
  match firstIdx '{' s, lastIdx '}' s with
  | some i, some j => decode ((s.take (j + 1)).drop i)
  | _, _ => none

/-- One question of `questions_data`, with exactly the fields the evaluation
and exam pages read. `correct_answer` and `sample_answer` are read with
default value the empty string, so an absent key and an empty string are
interchangeable and both are modelled by `[]`. -/
structure Question where
  id : Int
  qtype : List Char
  question : List Char
  marks : Rat
  correct_answer : List Char
  sample_answer : List Char
deriving DecidableEq

/-- The submitted answers: `user_answers` in `evaluate_exam_answers`. Python
keys the dictionary by `str(q_id)`; since `str` is injective on integers the
map is keyed by the id itself. -/
def AnswerRecord : Type := List (Int × List Char)

/-- Python `user_answers.get(str(q_id), quote quote)`. -/
def getAnswer (ua : AnswerRecord) (qid : Int) : List Char :=
  (List.lookup qid ua).getD []

/-- One element of `evaluation_data`: a Python dict whose optional keys
become `Option` fields (`none` = key absent). `needs_ai_evaluation` is read
with `.get`, so an absent key is the same as `false`. -/
structure EvalEntry where
  question_id : Int
  question : List Char
  qtype : List Char
  user_answer : List Char
  total_marks : Rat
  marks_obtained : Option Rat
  correct_answer : Option (List Char)
  is_correct : Option Bool
  sample_answer : Option (List Char)
  feedback : Option (List Char)
  suggestions : Option (List Char)
  needs_ai_evaluation : Bool
deriving DecidableEq

/-- Loop body of the first pass of `evaluate_exam_answers`: the entry
appended to `evaluation_data` for one question, paired with the amount
added to `obtained_marks` in that iteration (non-zero only on the
mcq-with-known-answer path). -/
def mkEntry (ua : AnswerRecord) (q : Question) : EvalEntry × Rat :=
  let user_answer := pyStrip (getAnswer ua q.id)
  if q.qtype = ("mcq").data then
    let correct_answer := pyStrip q.correct_answer
    if correct_answer ≠ [] then
      let is_correct := pyUpper user_answer = pyUpper correct_answer
      let marks_obtained : Rat := if is_correct then q.marks else 0
      (⟨q.id, q.question, q.qtype, user_answer, q.marks, some marks_obtained,
        some correct_answer, some is_correct, none, none, none, false⟩,
       marks_obtained)
    else
      (⟨q.id, q.question, q.qtype, user_answer, q.marks, none,
        none, none, some q.sample_answer, none, none, true⟩, 0)
  else
    (⟨q.id, q.question, q.qtype, user_answer, q.marks, none,
      none, none, some q.sample_answer, none, none, true⟩, 0)

/-- First pass of `evaluate_exam_answers` over `questions_data` in order:
returns `(evaluation_data, total_marks, obtained_marks)` as they stand when
the loop ends. -/
def evalPass (ua : AnswerRecord) : List Question → List EvalEntry × Rat × Rat
  | [] => ([], 0, 0)
  | q :: qs =>
      let (entry, delta) := mkEntry ua q
      let (es, t, o) := evalPass ua qs
      (entry :: es, q.marks + t, delta + o)

/-- One element of the decoded `evaluations` list of the batch grading
response, in the shape the reconciliation loop reads without raising:
`question_id` present, `marks_obtained` convertible to float (`none` = key
absent, defaulted to `0`), feedback and suggestions read with string
defaults. -/
structure EvalItem where
  question_id : Int
  marks_obtained : Option Rat
  feedback : Option (List Char)
  suggestions : Option (List Char)
deriving DecidableEq

/-- Outcome of the batch subjective-grading model call plus JSON
extraction, abstracting the collaborators: `parsed evals` is a response
containing a brace pair whose slice decoded, with `evals` the items of
`eval_result.get` of the evaluations key; `noJson` is a response with no
brace pair (the non-raising fallback branch); `decodeError` is a raising
`json.loads` (the except-handler fallback branch). -/
inductive GradingOutcome where
  | parsed : List EvalItem → GradingOutcome
  | noJson : GradingOutcome
  | decodeError : GradingOutcome
deriving DecidableEq

/-- Inner search of the reconciliation loop: find the first entry with the
given `question_id` that still has `needs_ai_evaluation` set, update it in
place with the given marks, feedback and suggestions, and clear the flag;
entries before the first match are left untouched, and nothing happens when
no entry matches. -/
def updateFirstDeferred (qid : Int) (marks : Rat) (fb sg : List Char) :
    List EvalEntry → List EvalEntry
  | [] => []
  | e :: es =>
      if e.question_id = qid ∧ e.needs_ai_evaluation then
        { e with marks_obtained := some marks, feedback := some fb,
                 suggestions := some sg, needs_ai_evaluation := false } :: es
      else
        e :: updateFirstDeferred qid marks fb sg es

/-- Reconciliation loop over the decoded evaluations: for each item, add its
marks to `obtained_marks` unconditionally, then update the first matching
still-deferred entry. Returns the updated `evaluation_data` and
`obtained_marks`. -/
def reconcile (evals : List EvalItem) (data : List EvalEntry) (obtained : Rat) :
    List EvalEntry × Rat :=
  match evals with
  | [] => (data, obtained)
  | it :: rest =>
      let marks := it.marks_obtained.getD 0
      let data2 := updateFirstDeferred it.question_id marks
        (it.feedback.getD (("Good attempt").data)) (it.suggestions.getD []) data
      reconcile rest data2 (obtained + marks)

/-- Heuristic fallback credit for one deferred entry: 60 percent of its
total marks when the user supplied a non-empty answer, zero otherwise. -/
def fallbackMarks (e : EvalEntry) : Rat :=
  if e.user_answer ≠ [] then e.total_marks * 0.6 else 0

/-- The generic feedback string attached by both fallback branches. -/
def partialCreditFeedback : List Char :=
  ("Answer provided - partial credit given").data

/-- Fallback loop over the snapshot `subjective_questions`: for each
snapshot entry, add its heuristic credit to `obtained_marks` and update the
first matching still-deferred entry of `evaluation_data` with that credit
and the generic feedback string. `sugg` is the suggestions text, which
differs between the no-brace branch and the except handler. -/
def applyFallback (subj : List EvalEntry) (data : List EvalEntry)
    (obtained : Rat) (sugg : List Char) : List EvalEntry × Rat :=
  match subj with
  | [] => (data, obtained)
  | q :: rest =>
      let fallback_marks := fallbackMarks q
      let data2 := updateFirstDeferred q.question_id fallback_marks
        partialCreditFeedback sugg data
      applyFallback rest data2 (obtained + fallback_marks) sugg

/-- The dictionary returned by `evaluate_exam_answers` (timestamp omitted:
it is wall-clock collaborator output). -/
structure EvalResult where
  total_marks : Rat
  obtained_marks : Rat
  percentage : Rat
  evaluations : List EvalEntry
deriving DecidableEq

/-- `evaluate_exam_answers` for runs that complete: first pass over the
questions, then — when any entry was deferred — reconciliation or fallback
according to the grading-call outcome, then the percentage. Runs in which
the model call itself raises return `None` in the source and are outside
this function. -/
def evaluate_exam_answers (qs : List Question) (ua : AnswerRecord)
    (resp : GradingOutcome) : EvalResult :=
  let (evaluation_data, total_marks, obtained_marks) := evalPass ua qs
  let subjective_questions := evaluation_data.filter (fun e => e.needs_ai_evaluation)
  let (data2, obtained2) :=
    if subjective_questions.isEmpty then (evaluation_data, obtained_marks)
    else
      match resp with
      | GradingOutcome.parsed evals => reconcile evals evaluation_data obtained_marks
      | GradingOutcome.noJson =>
          applyFallback subjective_questions evaluation_data obtained_marks
            (("Detailed evaluation was not available").data)
      | GradingOutcome.decodeError =>
          applyFallback subjective_questions evaluation_data obtained_marks
            (("Please review the sample answer for improvement").data)
  let percentage := if total_marks > 0 then obtained2 / total_marks * 100 else 0
  ⟨total_marks, obtained2, percentage, data2⟩

/-- Sum of `total_marks` over the rows of a marking report. -/
def sumTotal (es : List EvalEntry) : Rat :=
  (es.map (fun e => e.total_marks)).sum

/-- Sum of `marks_obtained` over the rows of a marking report, an absent
value counting as zero. -/
def sumObtained (es : List EvalEntry) : Rat :=
  (es.map (fun e => e.marks_obtained.getD 0)).sum

/-- Observable outcome of the tail of `generate_questions` once both model
calls have returned: the value returned to the caller, the published
`st.session_state.questions_data`, and whether the parse-failure warning
was emitted. -/
structure GenOutcome where
  returned_text : Option (List Char)
  questions_data : Option Json
  warned : Bool

/-- Tail of `generate_questions` for runs in which both model calls
succeed: strip the structured response, extract and decode its brace
slice; on success publish the decoded value as `questions_data`, on
failure (no brace pair, which raises ValueError, or a decoder error —
both land in the same except handler) clear `questions_data` and warn.
The display text is returned either way. -/
def generate_questions (decode : List Char → Option Json)
    (display_text exam_text : List Char) : GenOutcome :=
  let response_text := pyStrip exam_text
  match extractJson decode response_text with
  | some exam_data => ⟨some display_text, some exam_data, false⟩
  | none => ⟨some display_text, none, true⟩

/-- The session state touched by the Take-Exam submit handler. -/
structure ExamSession where
  exam_answers : List (Int × List Char)
  exam_submitted : Bool
  evaluation_result : Option EvalResult
deriving DecidableEq

/-- The Take-Exam form-submit handler, for evaluation runs that complete:
an empty `form_answers` (zero answered questions) only shows an error and
changes nothing; otherwise the answers are stored, evaluation runs, and the
result and submitted flag are set. -/
def submit_exam (st : ExamSession) (form_answers : List (Int × List Char))
    (qs : List Question) (resp : GradingOutcome) : ExamSession :=
  if form_answers.length = 0 then st
  else
    { exam_answers := form_answers,
      exam_submitted := true,
      evaluation_result := some (evaluate_exam_answers qs form_answers resp) }

/-- What the fallback does to a single entry, as a function: a deferred
entry gets the heuristic credit, the generic feedback and the given
suggestions, and its flag cleared; any other entry is untouched. -/
def fallbackUpd (sugg : List Char) (e : EvalEntry) : EvalEntry :=
  if e.needs_ai_evaluation then
    { e with marks_obtained := some (fallbackMarks e),
             feedback := some partialCreditFeedback,
             suggestions := some sugg,
             needs_ai_evaluation := false }
  else e

section ListHelpers

variable {α : Type}

theorem map_id_of_mem (f : α → α) :
    ∀ l : List α, (∀ x ∈ l, f x = x) → l.map f = l
  | [], _ => rfl
  | a :: l, h => by
      simp only [List.map_cons, h a (List.mem_cons_self a l),
        map_id_of_mem f l (fun x hx => h x (List.mem_cons_of_mem a hx))]

theorem filter_eq_cons_decomp (p : α → Bool) :
    ∀ (l : List α) (a : α) (as : List α), l.filter p = a :: as →
      ∃ l₁ l₂, l = l₁ ++ a :: l₂ ∧ (∀ x ∈ l₁, p x = false) ∧ p a = true ∧
        l₂.filter p = as
  | [], a, as, h => by simp at h
  | b :: l, a, as, h => by
      by_cases hb : p b
      · rw [List.filter_cons_of_pos hb] at h
        obtain ⟨h1, h2⟩ := List.cons.inj h
        exact ⟨[], l, by simp [h1], by simp, h1 ▸ hb, h2⟩
      · rw [List.filter_cons_of_neg hb] at h
        obtain ⟨l₁, l₂, hl, hl₁, ha, hfl⟩ := filter_eq_cons_decomp p l a as h
        exact ⟨b :: l₁, l₂, by simp [hl], by
          intro x hx
          rcases List.mem_cons.mp hx with hx | hx
          · simpa [hx] using hb
          · exact hl₁ x hx, ha, hfl⟩

end ListHelpers

theorem updateFirstDeferred_getElem_not_deferred (qid : Int) (m : Rat)
    (fb sg : List Char) :
    ∀ (l : List EvalEntry) (i : Nat) (e : EvalEntry), l[i]? = some e →
      e.needs_ai_evaluation = false →
      (updateFirstDeferred qid m fb sg l)[i]? = some e
  | [], i, e, h, _ => by simp at h
  | b :: l, i, e, h, hflag => by
      unfold updateFirstDeferred
      split
      · rename_i hcond
        cases i with
        | zero =>
            simp only [List.getElem?_cons_zero, Option.some.injEq] at h
            exact absurd (h ▸ hcond.2) (by simp [hflag])
        | succ n => simpa using h
      · cases i with
        | zero => simpa using h
        | succ n =>
            simp only [List.getElem?_cons_succ] at h ⊢
            exact updateFirstDeferred_getElem_not_deferred qid m fb sg l n e h hflag

theorem reconcile_getElem_not_deferred :
    ∀ (evals : List EvalItem) (data : List EvalEntry) (o : Rat) (i : Nat)
      (e : EvalEntry), data[i]? = some e → e.needs_ai_evaluation = false →
      (reconcile evals data o).1[i]? = some e
  | [], _, _, _, _, h, _ => h
  | it :: rest, data, o, i, e, h, hflag =>
      reconcile_getElem_not_deferred rest _ _ i e
        (updateFirstDeferred_getElem_not_deferred _ _ _ _ data i e h hflag) hflag

theorem applyFallback_getElem_not_deferred :
    ∀ (subj data : List EvalEntry) (o : Rat) (s : List Char) (i : Nat)
      (e : EvalEntry), data[i]? = some e → e.needs_ai_evaluation = false →
      (applyFallback subj data o s).1[i]? = some e
  | [], _, _, _, _, _, h, _ => h
  | q :: rest, data, o, s, i, e, h, hflag =>
      applyFallback_getElem_not_deferred rest _ _ s i e
        (updateFirstDeferred_getElem_not_deferred _ _ _ _ data i e h hflag) hflag

theorem evalPass_getElem (ua : AnswerRecord) :
    ∀ (qs : List Question) (i : Nat),
      (evalPass ua qs).1[i]? = (qs[i]?).map (fun q => (mkEntry ua q).1)
  | [], i => by simp [evalPass]
  | q :: qs, i => by
      cases i with
      | zero => simp [evalPass]
      | succ n => simpa [evalPass] using evalPass_getElem ua qs n

theorem mkEntry_mcq (ua : AnswerRecord) (q : Question)
    (hty : q.qtype = ("mcq").data) (hca : pyStrip q.correct_answer ≠ []) :
    mkEntry ua q =
      (⟨q.id, q.question, q.qtype, pyStrip (getAnswer ua q.id), q.marks,
        some (if pyUpper (pyStrip (getAnswer ua q.id)) =
                pyUpper (pyStrip q.correct_answer) then q.marks else 0),
        some (pyStrip q.correct_answer),
        some (decide (pyUpper (pyStrip (getAnswer ua q.id)) =
                pyUpper (pyStrip q.correct_answer))),
        none, none, none, false⟩,
       if pyUpper (pyStrip (getAnswer ua q.id)) =
           pyUpper (pyStrip q.correct_answer) then q.marks else 0) := by
  unfold mkEntry
  rw [if_pos hty, if_pos hca]

theorem mkEntry_total (ua : AnswerRecord) (q : Question) :
    (mkEntry ua q).1.total_marks = q.marks := by
  simp only [mkEntry]
  split_ifs <;> rfl

theorem mkEntry_delta (ua : AnswerRecord) (q : Question) :
    (mkEntry ua q).2 = ((mkEntry ua q).1.marks_obtained).getD 0 := by
  simp only [mkEntry]
  split_ifs <;> rfl

theorem mkEntry_flag_marks (ua : AnswerRecord) (q : Question) :
    ((mkEntry ua q).1.needs_ai_evaluation = true →
        (mkEntry ua q).1.marks_obtained = none) ∧
      ((mkEntry ua q).1.needs_ai_evaluation = false →
        (mkEntry ua q).1.marks_obtained = some 0 ∨
          (mkEntry ua q).1.marks_obtained = some q.marks) := by
  simp only [mkEntry]
  split_ifs with h1 h2 h3
  · exact ⟨by simp, fun _ => Or.inr rfl⟩
  · exact ⟨by simp, fun _ => Or.inl rfl⟩
  · exact ⟨fun _ => rfl, by simp⟩
  · exact ⟨fun _ => rfl, by simp⟩

theorem evalPass_flagged_none (ua : AnswerRecord) :
    ∀ (qs : List Question) (e : EvalEntry), e ∈ (evalPass ua qs).1 →
      e.needs_ai_evaluation = true → e.marks_obtained = none
  | [], e, he, _ => by simp [evalPass] at he
  | q :: qs, e, he, hflag => by
      simp only [evalPass, List.mem_cons] at he
      rcases he with he | he
      · exact he ▸ (mkEntry_flag_marks ua q).1 (he ▸ hflag)
      · exact evalPass_flagged_none ua qs e he hflag

theorem evalPass_unflagged_some (ua : AnswerRecord) :
    ∀ (qs : List Question) (e : EvalEntry), e ∈ (evalPass ua qs).1 →
      e.needs_ai_evaluation = false →
      e.marks_obtained = some 0 ∨ e.marks_obtained = some e.total_marks
  | [], e, he, _ => by simp [evalPass] at he
  | q :: qs, e, he, hflag => by
      simp only [evalPass, List.mem_cons] at he
      rcases he with he | he
      · subst he
        have := (mkEntry_flag_marks ua q).2 hflag
        rwa [← mkEntry_total ua q] at this
      · exact evalPass_unflagged_some ua qs e he hflag

theorem evalPass_total (ua : AnswerRecord) :
    ∀ qs : List Question, (evalPass ua qs).2.1 = sumTotal (evalPass ua qs).1
  | [] => by simp [evalPass, sumTotal]
  | q :: qs => by
      simp only [evalPass, sumTotal, List.map_cons, List.sum_cons, mkEntry_total]
      rw [← sumTotal, ← evalPass_total ua qs]

theorem evalPass_obtained (ua : AnswerRecord) :
    ∀ qs : List Question, (evalPass ua qs).2.2 = sumObtained (evalPass ua qs).1
  | [] => by simp [evalPass, sumObtained]
  | q :: qs => by
      simp only [evalPass, sumObtained, List.map_cons, List.sum_cons]
      rw [← mkEntry_delta, ← sumObtained, ← evalPass_obtained ua qs]

theorem updateFirstDeferred_map_total (qid : Int) (m : Rat) (fb sg : List Char) :
    ∀ l : List EvalEntry,
      (updateFirstDeferred qid m fb sg l).map (fun e => e.total_marks) =
        l.map (fun e => e.total_marks)
  | [] => rfl
  | e :: es => by
      unfold updateFirstDeferred
      split
      · rfl
      · simp only [List.map_cons, updateFirstDeferred_map_total qid m fb sg es]

theorem reconcile_map_total :
    ∀ (evals : List EvalItem) (data : List EvalEntry) (o : Rat),
      ((reconcile evals data o).1).map (fun e => e.total_marks) =
        data.map (fun e => e.total_marks)
  | [], _, _ => rfl
  | it :: rest, data, o => by
      unfold reconcile
      rw [reconcile_map_total rest _ _, updateFirstDeferred_map_total]

theorem applyFallback_map_total :
    ∀ (subj data : List EvalEntry) (o : Rat) (s : List Char),
      ((applyFallback subj data o s).1).map (fun e => e.total_marks) =
        data.map (fun e => e.total_marks)
  | [], _, _, _ => rfl
  | q :: rest, data, o, s => by
      unfold applyFallback
      rw [applyFallback_map_total rest _ _ s, updateFirstDeferred_map_total]

theorem updateFirstDeferred_segment (qid : Int) (m : Rat) (fb sg : List Char) :
    ∀ (l₁ : List EvalEntry) (a : EvalEntry) (l₂ : List EvalEntry),
      (∀ x ∈ l₁, x.needs_ai_evaluation = false) → a.question_id = qid →
      a.needs_ai_evaluation = true →
      updateFirstDeferred qid m fb sg (l₁ ++ a :: l₂) =
        l₁ ++ { a with marks_obtained := some m, feedback := some fb,
                        suggestions := some sg,
                        needs_ai_evaluation := false } :: l₂
  | [], a, l₂, _, hid, hflag => by
      show updateFirstDeferred qid m fb sg (a :: l₂) = _
      unfold updateFirstDeferred
      rw [if_pos ⟨hid, hflag⟩]
      rfl
  | b :: l₁, a, l₂, h₁, hid, hflag => by
      have hb : b.needs_ai_evaluation = false := h₁ b (List.mem_cons_self b l₁)
      show updateFirstDeferred qid m fb sg (b :: (l₁ ++ a :: l₂)) = _
      unfold updateFirstDeferred
      split
      · rename_i hcond
        exact absurd hcond.2 (by simp [hb])
      · rw [updateFirstDeferred_segment qid m fb sg l₁ a l₂
            (fun x hx => h₁ x (List.mem_cons_of_mem b hx)) hid hflag]
        rfl

theorem fallbackUpd_of_flag (sugg : List Char) (e : EvalEntry)
    (h : e.needs_ai_evaluation = true) :
    fallbackUpd sugg e =
      { e with marks_obtained := some (fallbackMarks e),
               feedback := some partialCreditFeedback,
               suggestions := some sugg,
               needs_ai_evaluation := false } := by
  simp [fallbackUpd, h]

theorem fallbackUpd_of_not_flag (sugg : List Char) (e : EvalEntry)
    (h : e.needs_ai_evaluation = false) : fallbackUpd sugg e = e := by
  simp [fallbackUpd, h]

theorem applyFallback_eq :
    ∀ (subj data : List EvalEntry) (o : Rat) (sugg : List Char),
      data.filter (fun e => e.needs_ai_evaluation) = subj →
      applyFallback subj data o sugg =
        (data.map (fallbackUpd sugg), o + (subj.map fallbackMarks).sum)
  | [], data, o, sugg, h => by
      unfold applyFallback
      have hall : ∀ x ∈ data, x.needs_ai_evaluation = false := by
        intro x hx
        have := List.filter_eq_nil_iff.mp h x hx
        simpa using this
      rw [map_id_of_mem (fallbackUpd sugg) data
        (fun x hx => fallbackUpd_of_not_flag sugg x (hall x hx))]
      simp
  | q :: rest, data, o, sugg, h => by
      obtain ⟨l₁, l₂, hl, hl₁, hq, hfl⟩ :=
        filter_eq_cons_decomp (fun e => e.needs_ai_evaluation) data q rest h
      subst hl
      have hq' : q.needs_ai_evaluation = true := by simpa using hq
      unfold applyFallback
      show applyFallback rest (updateFirstDeferred q.question_id
          (fallbackMarks q) partialCreditFeedback sugg (l₁ ++ q :: l₂))
          (o + fallbackMarks q) sugg = _
      rw [updateFirstDeferred_segment _ _ _ _ l₁ q l₂
        (fun x hx => by simpa using hl₁ x hx) rfl hq',
        ← fallbackUpd_of_flag sugg q hq']
      have hfl' : (l₁ ++ fallbackUpd sugg q :: l₂).filter
          (fun e => e.needs_ai_evaluation) = rest := by
        rw [List.filter_append, List.filter_cons_of_neg
          (by simp [fallbackUpd_of_flag sugg q hq']),
          List.filter_eq_nil_iff.mpr (fun x hx => by simpa using hl₁ x hx),
          List.nil_append, hfl]
      rw [applyFallback_eq rest _ _ sugg hfl']
      rw [List.map_append, List.map_cons, List.map_append, List.map_cons,
        fallbackUpd_of_not_flag sugg (fallbackUpd sugg q)
          (by simp [fallbackUpd_of_flag sugg q hq'])]
      simp only [List.map_cons, List.sum_cons]
      rw [Prod.mk.injEq]
      constructor
      · rfl
      · ring

theorem sumObtained_map_fallbackUpd (sugg : List Char) :
    ∀ data : List EvalEntry,
      (∀ e ∈ data, e.needs_ai_evaluation = true → e.marks_obtained = none) →
      sumObtained (data.map (fallbackUpd sugg)) =
        sumObtained data +
          ((data.filter (fun e => e.needs_ai_evaluation)).map fallbackMarks).sum
  | [], _ => by simp [sumObtained]
  | e :: data, h => by
      have ih := sumObtained_map_fallbackUpd sugg data
        (fun x hx => h x (List.mem_cons_of_mem e hx))
      by_cases hf : e.needs_ai_evaluation = true
      · rw [List.map_cons, List.filter_cons_of_pos (by simpa using hf)]
        simp only [sumObtained, List.map_cons, List.sum_cons] at ih ⊢
        rw [fallbackUpd_of_flag sugg e hf]
        simp only [Option.getD_some,
          h e (List.mem_cons_self e data) hf, Option.getD_none]
        rw [ih]
        ring
      · have hf' : e.needs_ai_evaluation = false := by simpa using hf
        rw [List.map_cons, List.filter_cons_of_neg (by simpa using hf)]
        simp only [sumObtained, List.map_cons, List.sum_cons] at ih ⊢
        rw [fallbackUpd_of_not_flag sugg e hf', ih]
        ring

theorem fallback_branch_eq (data : List EvalEntry) (o : Rat) (s : List Char) :
    (if (data.filter (fun e => e.needs_ai_evaluation)).isEmpty then (data, o)
     else applyFallback (data.filter (fun e => e.needs_ai_evaluation)) data o s) =
    (data.map (fallbackUpd s),
     o + ((data.filter (fun e => e.needs_ai_evaluation)).map fallbackMarks).sum) := by
  split
  · rename_i hemp
    have hnil : data.filter (fun e => e.needs_ai_evaluation) = [] :=
      List.isEmpty_iff.mp hemp
    rw [hnil]
    have hall : ∀ x ∈ data, x.needs_ai_evaluation = false := by
      intro x hx
      simpa using List.filter_eq_nil_iff.mp hnil x hx
    rw [map_id_of_mem (fallbackUpd s) data
      (fun x hx => fallbackUpd_of_not_flag s x (hall x hx))]
    simp
  · exact applyFallback_eq _ data o s rfl

theorem evaluate_total (qs : List Question) (ua : AnswerRecord)
    (resp : GradingOutcome) :
    (evaluate_exam_answers qs ua resp).total_marks = (evalPass ua qs).2.1 := by
  rcases hE : evalPass ua qs with ⟨data, t, o⟩
  simp only [evaluate_exam_answers, hE]

theorem evaluate_percentage_eq (qs : List Question) (ua : AnswerRecord)
    (resp : GradingOutcome) :
    (evaluate_exam_answers qs ua resp).percentage =
      (if (evaluate_exam_answers qs ua resp).total_marks > 0
       then (evaluate_exam_answers qs ua resp).obtained_marks /
              (evaluate_exam_answers qs ua resp).total_marks * 100
       else 0) := by
  rcases hE : evalPass ua qs with ⟨data, t, o⟩
  simp only [evaluate_exam_answers, hE]

theorem evaluate_getElem_not_deferred (qs : List Question) (ua : AnswerRecord)
    (resp : GradingOutcome) (i : Nat) (e : EvalEntry)
    (h : (evalPass ua qs).1[i]? = some e)
    (hflag : e.needs_ai_evaluation = false) :
    (evaluate_exam_answers qs ua resp).evaluations[i]? = some e := by
  rcases hE : evalPass ua qs with ⟨data, t, o⟩
  rw [hE] at h
  simp only [evaluate_exam_answers, hE]
  split
  · exact h
  · cases resp with
    | parsed evals => exact reconcile_getElem_not_deferred evals data o i e h hflag
    | noJson => exact applyFallback_getElem_not_deferred _ data o _ i e h hflag
    | decodeError => exact applyFallback_getElem_not_deferred _ data o _ i e h hflag

theorem pyFind_eq_firstIdx (c : Char) :
    ∀ s : List Char, pyFind c s =
      (match firstIdx c s with
       | some n => (n : Int)
       | none => -1)
  | [] => rfl
  | a :: rest => by
      by_cases ha : a = c
      · simp [pyFind, firstIdx, ha]
      · rw [pyFind, firstIdx, if_neg ha, if_neg ha,
          pyFind_eq_firstIdx c rest]
        cases hfi : firstIdx c rest with
        | none => simp
        | some n =>
            have hne : (n : Int) ≠ -1 := by omega
            simp only [Option.map_some', if_neg hne]
            push_cast
            ring

theorem pyRFind_eq_lastIdx (c : Char) :
    ∀ s : List Char, pyRFind c s =
      (match lastIdx c s with
       | some n => (n : Int)
       | none => -1)
  | [] => rfl
  | a :: rest => by
      rw [pyRFind, lastIdx, pyRFind_eq_lastIdx c rest]
      cases hfi : lastIdx c rest with
      | none => by_cases ha : a = c <;> simp [ha]
      | some n =>
          have hne : (n : Int) ≠ -1 := by omega
          simp only [if_neg hne]
          push_cast
          ring

theorem firstIdx_eq_none_iff (c : Char) :
    ∀ s : List Char, firstIdx c s = none ↔ c ∉ s
  | [] => by simp [firstIdx]
  | a :: rest => by
      rw [firstIdx]
      by_cases ha : a = c
      · rw [if_pos ha]
        simp [ha]
      · rw [if_neg ha]
        constructor
        · intro h hc
          have h' : firstIdx c rest = none := by
            cases hfi : firstIdx c rest with
            | none => rfl
            | some n =>
                rw [hfi] at h
                simp at h
          rcases List.mem_cons.mp hc with hc | hc
          · exact ha hc.symm
          · exact (firstIdx_eq_none_iff c rest).mp h' hc
        · intro h
          have hnr : c ∉ rest := fun hc => h (List.mem_cons_of_mem a hc)
          rw [(firstIdx_eq_none_iff c rest).mpr hnr]
          rfl

theorem lastIdx_eq_none_iff (c : Char) :
    ∀ s : List Char, lastIdx c s = none ↔ c ∉ s
  | [] => by simp [lastIdx]
  | a :: rest => by
      rw [lastIdx]
      cases hfi : lastIdx c rest with
      | some n =>
          have hc : c ∈ rest := by
            by_contra hnc
            rw [(lastIdx_eq_none_iff c rest).mpr hnc] at hfi
            cases hfi
          constructor
          · intro h
            cases h
          · intro h
            exact absurd (List.mem_cons_of_mem a hc) h
      | none =>
          have hnc : c ∉ rest := (lastIdx_eq_none_iff c rest).mp hfi
          by_cases ha : a = c
          · rw [if_pos ha]
            constructor
            · intro h
              cases h
            · intro h
              exact absurd (List.mem_cons.mpr (Or.inl ha.symm)) h
          · rw [if_neg ha]
            constructor
            · intro _ hc
              rcases List.mem_cons.mp hc with hc | hc
              · exact ha hc.symm
              · exact hnc hc
            · intro _
              rfl

theorem firstIdx_eq_some_iff (c : Char) :
    ∀ (s : List Char) (i : Nat), firstIdx c s = some i ↔
      (s[i]? = some c ∧ ∀ k, k < i → s[k]? ≠ some c)
  | [], i => by simp [firstIdx]
  | a :: rest, i => by
      rw [firstIdx]
      by_cases ha : a = c
      · rw [if_pos ha]
        cases i with
        | zero => simp [ha]
        | succ n =>
            constructor
            · intro h
              exact absurd (Option.some.inj h) (by omega)
            · rintro ⟨-, hk⟩
              exact absurd (show (a :: rest)[0]? = some c by simp [ha])
                (hk 0 (Nat.succ_pos n))
      · rw [if_neg ha]
        cases i with
        | zero =>
            constructor
            · intro h
              obtain ⟨m, -, hmn⟩ := Option.map_eq_some'.mp h
              exact absurd hmn (by omega)
            · rintro ⟨h0, -⟩
              rw [List.getElem?_cons_zero] at h0
              exact absurd (Option.some.inj h0) ha
        | succ n =>
            constructor
            · intro h
              obtain ⟨m, hm, hmn⟩ := Option.map_eq_some'.mp h
              have hmn' : m = n := by omega
              subst hmn'
              obtain ⟨h1, h2⟩ := (firstIdx_eq_some_iff c rest m).mp hm
              refine ⟨by simpa using h1, ?_⟩
              intro k hk
              cases k with
              | zero =>
                  simp only [List.getElem?_cons_zero, ne_eq, Option.some.injEq]
                  exact ha
              | succ m' => simpa using h2 m' (by omega)
            · rintro ⟨h1, h2⟩
              have hres : firstIdx c rest = some n := by
                rw [firstIdx_eq_some_iff]
                refine ⟨by simpa using h1, ?_⟩
                intro k hk
                simpa using h2 (k + 1) (by omega)
              rw [hres]
              rfl

theorem lastIdx_eq_some_iff (c : Char) :
    ∀ (s : List Char) (j : Nat), lastIdx c s = some j ↔
      (s[j]? = some c ∧ ∀ k, j < k → s[k]? ≠ some c)
  | [], j => by simp [lastIdx]
  | a :: rest, j => by
      rw [lastIdx]
      cases hfi : lastIdx c rest with
      | some n =>
          obtain ⟨hn1, hn2⟩ := (lastIdx_eq_some_iff c rest n).mp hfi
          cases j with
          | zero =>
              constructor
              · intro h
                exact absurd (Option.some.inj h) (by omega)
              · rintro ⟨-, hk⟩
                exact absurd (show (a :: rest)[n + 1]? = some c by simpa using hn1)
                  (hk (n + 1) (Nat.succ_pos n))
          | succ m =>
              constructor
              · intro h
                have hnm : n = m := by
                  have := Option.some.inj h
                  omega
                subst hnm
                refine ⟨by simpa using hn1, ?_⟩
                intro k hk
                cases k with
                | zero => exact absurd hk (by omega)
                | succ k' => simpa using hn2 k' (by omega)
              · rintro ⟨h1, h2⟩
                have hsome : lastIdx c rest = some m := by
                  rw [lastIdx_eq_some_iff]
                  refine ⟨by simpa using h1, ?_⟩
                  intro k hk
                  simpa using h2 (k + 1) (by omega)
                rw [hfi] at hsome
                rw [Option.some.inj hsome]
      | none =>
          have hnc : ∀ k : Nat, rest[k]? ≠ some c := by
            intro k hk
            exact (lastIdx_eq_none_iff c rest).mp hfi
              (List.mem_iff_getElem?.mpr ⟨k, hk⟩)
          by_cases ha : a = c
          · rw [if_pos ha]
            cases j with
            | zero =>
                constructor
                · intro _
                  refine ⟨by simp [ha], ?_⟩
                  intro k hk
                  cases k with
                  | zero => exact absurd hk (by omega)
                  | succ k' => simpa using hnc k'
                · intro _
                  rfl
            | succ m =>
                constructor
                · intro h
                  exact absurd (Option.some.inj h) (by omega)
                · rintro ⟨h1, -⟩
                  rw [List.getElem?_cons_succ] at h1
                  exact absurd h1 (hnc m)
          · rw [if_neg ha]
            cases j with
            | zero =>
                constructor
                · intro h
                  cases h
                · rintro ⟨h1, -⟩
                  rw [List.getElem?_cons_zero] at h1
                  exact absurd (Option.some.inj h1) ha
            | succ m =>
                constructor
                · intro h
                  cases h
                · rintro ⟨h1, -⟩
                  rw [List.getElem?_cons_succ] at h1
                  exact absurd h1 (hnc m)

theorem contains_iff_mem (c : Char) (s : List Char) :
    s.contains c = true ↔ c ∈ s := by
  simp [List.contains, List.elem_iff]

theorem extractJson_eq_spec (decode : List Char → Option Json) (s : List Char) :
    extractJson decode s = extractJson_spec decode s := by
  unfold extractJson extractJson_spec
  by_cases h1 : ('{') ∈ s
  · by_cases h2 : ('}') ∈ s
    · obtain ⟨i, hi⟩ : ∃ i, firstIdx '{' s = some i := by
        cases hfi : firstIdx '{' s with
        | none => exact absurd ((firstIdx_eq_none_iff _ s).mp hfi) (not_not.mpr h1)
        | some i => exact ⟨i, rfl⟩
      obtain ⟨j, hj⟩ : ∃ j, lastIdx '}' s = some j := by
        cases hfi : lastIdx '}' s with
        | none => exact absurd ((lastIdx_eq_none_iff _ s).mp hfi) (not_not.mpr h2)
        | some j => exact ⟨j, rfl⟩
      rw [if_pos (by
        rw [Bool.and_eq_true, contains_iff_mem, contains_iff_mem]
        exact ⟨h1, h2⟩), hi, hj]
      rw [pyFind_eq_firstIdx, pyRFind_eq_lastIdx, hi, hj]
      congr 1
    · have hln : lastIdx '}' s = none := (lastIdx_eq_none_iff '}' s).mpr h2
      rw [if_neg (by
        rw [Bool.and_eq_true, contains_iff_mem, contains_iff_mem]
        exact fun h => h2 h.2)]
      rw [hln]
      cases firstIdx '{' s <;> rfl
  · have hfn : firstIdx '{' s = none := (firstIdx_eq_none_iff '{' s).mpr h1
    rw [if_neg (by
      rw [Bool.and_eq_true, contains_iff_mem, contains_iff_mem]
      exact fun h => h1 h.1)]
    rw [hfn]

theorem evaluate_fallback_fields (qs : List Question) (ua : AnswerRecord)
    (resp : GradingOutcome) (s : List Char)
    (h : resp = GradingOutcome.noJson ∧
           s = ("Detailed evaluation was not available").data ∨
         resp = GradingOutcome.decodeError ∧
           s = ("Please review the sample answer for improvement").data) :
    (evaluate_exam_answers qs ua resp).evaluations =
        (evalPass ua qs).1.map (fallbackUpd s) ∧
      (evaluate_exam_answers qs ua resp).obtained_marks =
        (evalPass ua qs).2.2 +
          (((evalPass ua qs).1.filter
              (fun e => e.needs_ai_evaluation)).map fallbackMarks).sum := by
  rcases hE : evalPass ua qs with ⟨data, t, o⟩
  rcases h with ⟨hr, hs⟩ | ⟨hr, hs⟩ <;> subst hr <;> subst hs <;>
    simp only [evaluate_exam_answers, hE] <;>
    rw [fallback_branch_eq data o] <;> exact ⟨rfl, rfl⟩

theorem evaluate_map_total (qs : List Question) (ua : AnswerRecord)
    (resp : GradingOutcome) :
    ((evaluate_exam_answers qs ua resp).evaluations).map (fun e => e.total_marks) =
      ((evalPass ua qs).1).map (fun e => e.total_marks) := by
  rcases hE : evalPass ua qs with ⟨data, t, o⟩
  simp only [evaluate_exam_answers, hE]
  split
  · rfl
  · cases resp with
    | parsed evals => exact reconcile_map_total evals data o
    | noJson => exact applyFallback_map_total _ data o _
    | decodeError => exact applyFallback_map_total _ data o _

theorem evalPass_mem_exists (ua : AnswerRecord) :
    ∀ (qs : List Question) (e : EvalEntry), e ∈ (evalPass ua qs).1 →
      ∃ q ∈ qs, e = (mkEntry ua q).1
  | [], e, he => by simp [evalPass] at he
  | q :: qs, e, he => by
      simp only [evalPass, List.mem_cons] at he
      rcases he with he | he
      · exact ⟨q, List.mem_cons_self q qs, he⟩
      · obtain ⟨q', hq', he'⟩ := evalPass_mem_exists ua qs e he
        exact ⟨q', List.mem_cons_of_mem q hq', he'⟩

theorem fallbackMarks_bounds (e : EvalEntry) (h : 0 ≤ e.total_marks) :
    0 ≤ fallbackMarks e ∧ fallbackMarks e ≤ e.total_marks := by
  unfold fallbackMarks
  split
  · constructor
    · positivity
    · nlinarith
  · exact ⟨le_refl 0, h⟩

theorem map_fallbackUpd_totality (qs : List Question) (ua : AnswerRecord)
    (s : List Char) (e : EvalEntry)
    (he : e ∈ ((evalPass ua qs).1.map (fallbackUpd s))) :
    e.needs_ai_evaluation = false ∧ e.marks_obtained ≠ none := by
  obtain ⟨e₀, he₀, rfl⟩ := List.mem_map.mp he
  by_cases hf : e₀.needs_ai_evaluation = true
  · rw [fallbackUpd_of_flag s e₀ hf]
    exact ⟨rfl, by simp⟩
  · have hf' : e₀.needs_ai_evaluation = false := by simpa using hf
    rw [fallbackUpd_of_not_flag s e₀ hf']
    rcases evalPass_unflagged_some ua qs e₀ he₀ hf' with hm | hm <;>
      exact ⟨hf', by simp [hm]⟩

/-- Concrete mcq question used to instantiate theorems: id 1, one mark,
correct answer C. -/
def mcqQ : Question :=
  ⟨1, ("mcq").data, ("Which letter?").data, 1, ("C").data, []⟩

/-- Concrete short question used to instantiate theorems: id 2, three
marks, no correct answer. -/
def shortQ : Question :=
  ⟨2, ("short").data, ("Explain gravity.").data, 3,
   [], ("Gravity pulls masses together").data⟩

/-- Concrete submitted answers used to instantiate theorems. -/
def wAnswers : AnswerRecord := [(2, ("gravity pulls things").data)]

/-- The phase-one entry built for `shortQ` under `wAnswers`. -/
def wShortEntry : EvalEntry := (mkEntry wAnswers shortQ).1

/-- A decoder stub used to instantiate parser theorems. -/
def wDecode : List Char → Option Json := fun s => some (Json.str s)

/-- A schema-violating decoded payload: an object with no questions list. -/
def wBadPayload : Json := Json.obj [(("foo").data, Json.num 1)]

/-- C7: for every raw model response text, the parser extracts the slice
from the first opening brace to the last closing brace inclusive and
attempts strict decoding of exactly that slice, and it classifies the
response as a parse failure exactly when no brace of one of the two kinds
occurs in the text or decoding of that slice fails. The last two conjuncts
pin down that `firstIdx` and `lastIdx` really are the first and last
occurrence positions. -/
theorem C7_parser_first_last_brace_slice (decode : List Char → Option Json)
    (s : List Char) :
    extractJson decode s = extractJson_spec decode s
    ∧ (extractJson decode s = none ↔
        (('{') ∉ s ∨ ('}') ∉ s ∨ decode (braceSlice_spec s) = none))
    ∧ (∀ i : Nat, firstIdx '{' s = some i ↔
        (s[i]? = some '{' ∧ ∀ k, k < i → s[k]? ≠ some '{'))
    ∧ (∀ j : Nat, lastIdx '}' s = some j ↔
        (s[j]? = some '}' ∧ ∀ k, j < k → s[k]? ≠ some '}')) := by
  refine ⟨extractJson_eq_spec decode s, ?_,
    fun i => firstIdx_eq_some_iff '{' s i, fun j => lastIdx_eq_some_iff '}' s j⟩
  rw [extractJson_eq_spec decode s]
  unfold extractJson_spec braceSlice_spec
  cases hfi : firstIdx '{' s with
  | none => simp [(firstIdx_eq_none_iff _ s).mp hfi]
  | some i =>
      have h1 : ('{') ∈ s := by
        by_contra h
        rw [(firstIdx_eq_none_iff _ s).mpr h] at hfi
        cases hfi
      cases hfj : lastIdx '}' s with
      | none => simp [(lastIdx_eq_none_iff _ s).mp hfj, h1]
      | some j =>
          have h2 : ('}') ∈ s := by
            by_contra h
            rw [(lastIdx_eq_none_iff _ s).mpr h] at hfj
            cases hfj
          simp [h1, h2]

/-- Witness for C7 at a concrete decoder and text. -/
theorem C7_witness :
    extractJson wDecode (("ab{cd}e").data) =
      extractJson_spec wDecode (("ab{cd}e").data) :=
  (C7_parser_first_last_brace_slice wDecode (("ab{cd}e").data)).1

/-- C8: when both model calls succeed but the structured exam-data response
fails to parse, the failure is non-fatal: `questions_data` is cleared to
`None`, the warning is emitted, and the display text is still returned. -/
theorem C8_parse_failure_nonfatal (decode : List Char → Option Json)
    (display_text exam_text : List Char)
    (h : extractJson decode (pyStrip exam_text) = none) :
    generate_questions decode display_text exam_text =
      ⟨some display_text, none, true⟩ := by
  unfold generate_questions
  show (match extractJson decode (pyStrip exam_text) with
    | some exam_data => GenOutcome.mk (some display_text) (some exam_data) false
    | none => GenOutcome.mk (some display_text) none true) = _
  rw [h]

/-- Witness for C8: a structured response with no braces at all (the
scenario-D text), under a decoder that would accept anything. -/
theorem C8_witness :
    extractJson (fun _ => some Json.null) (pyStrip (("hello").data)) = none
    ∧ generate_questions (fun _ => some Json.null)
        (("Q1. What is X?").data) (("hello").data) =
      ⟨some (("Q1. What is X?").data), none, true⟩ :=
  ⟨rfl, C8_parse_failure_nonfatal (fun _ => some Json.null) _ _ rfl⟩

/-- C10: whenever the brace slice of the structured response decodes, the
decoded value is published wholesale as `questions_data` and the operation
reports success (no warning), with no schema validation of the payload:
the conclusion holds for every decoded value `j`, whatever its shape. -/
theorem C10_wholesale_publication (decode : List Char → Option Json)
    (display_text exam_text : List Char) (j : Json)
    (h : extractJson decode (pyStrip exam_text) = some j) :
    generate_questions decode display_text exam_text =
      ⟨some display_text, some j, false⟩ := by
  unfold generate_questions
  show (match extractJson decode (pyStrip exam_text) with
    | some exam_data => GenOutcome.mk (some display_text) (some exam_data) false
    | none => GenOutcome.mk (some display_text) none true) = _
  rw [h]

/-- Witness for C10: a payload with no questions key is accepted and
published, and only the later subscripting of the questions key comes back
empty. -/
theorem C10_witness :
    extractJson (fun _ => some wBadPayload) (pyStrip (("{bad}").data)) =
      some wBadPayload
    ∧ generate_questions (fun _ => some wBadPayload)
        (("display text").data) (("{bad}").data) =
      ⟨some (("display text").data), some wBadPayload, false⟩
    ∧ getQuestions wBadPayload = none :=
  ⟨rfl, C10_wholesale_publication (fun _ => some wBadPayload) _ _ wBadPayload rfl,
   rfl⟩

/-- C9: submitting the exam with zero answered questions changes nothing:
the handler only reports an error, the submitted flag is not set, no
evaluation is run, and no result is stored — the session is returned
exactly as it was. -/
theorem C9_empty_submission_rejected (st : ExamSession) (qs : List Question)
    (resp : GradingOutcome) :
    submit_exam st [] qs resp = st := by
  unfold submit_exam
  rfl

/-- C6: the percentage equals 100 times obtained over total when the total
is positive, and is zero when the total is zero; the computation in the
embedding is total, so no division error can occur. -/
theorem C6_percentage_safe (qs : List Question) (ua : AnswerRecord)
    (resp : GradingOutcome) :
    ((evaluate_exam_answers qs ua resp).total_marks > 0 →
      (evaluate_exam_answers qs ua resp).percentage =
        100 * (evaluate_exam_answers qs ua resp).obtained_marks /
          (evaluate_exam_answers qs ua resp).total_marks)
    ∧ ((evaluate_exam_answers qs ua resp).total_marks = 0 →
      (evaluate_exam_answers qs ua resp).percentage = 0) := by
  constructor
  · intro h
    rw [evaluate_percentage_eq, if_pos h]
    ring
  · intro h
    rw [evaluate_percentage_eq, if_neg (by rw [h]; exact lt_irrefl 0)]

/-- Witness for C6 on a concrete three-mark exam. -/
theorem C6_witness :
    (evaluate_exam_answers [shortQ] wAnswers GradingOutcome.noJson).total_marks
      > 0
    ∧ (evaluate_exam_answers [shortQ] wAnswers GradingOutcome.noJson).percentage
      = 100 *
        (evaluate_exam_answers [shortQ] wAnswers
          GradingOutcome.noJson).obtained_marks /
        (evaluate_exam_answers [shortQ] wAnswers
          GradingOutcome.noJson).total_marks :=
  ⟨by
    rw [show (evaluate_exam_answers [shortQ] wAnswers
        GradingOutcome.noJson).total_marks = 3 + 0 from rfl]
    norm_num,
   (C6_percentage_safe [shortQ] wAnswers GradingOutcome.noJson).1
    (by
      rw [show (evaluate_exam_answers [shortQ] wAnswers
          GradingOutcome.noJson).total_marks = 3 + 0 from rfl]
      norm_num)⟩

/-- C1: an mcq question with a defined (non-empty after stripping) correct
answer is graded locally: whatever the grading-call outcome `resp`, its
entry's marks equal the question's marks exactly when the stripped
submitted letter matches the stripped correct answer up to case, and zero
otherwise; an unanswered mcq gets zero. -/
theorem C1_mcq_graded_locally (qs : List Question) (ua : AnswerRecord)
    (resp : GradingOutcome) (i : Nat) (q : Question)
    (hq : qs[i]? = some q) (hty : q.qtype = ("mcq").data)
    (hca : pyStrip q.correct_answer ≠ []) :
    ((evaluate_exam_answers qs ua resp).evaluations[i]?).map
        (fun e => e.marks_obtained) =
      some (some (if pyUpper (pyStrip (getAnswer ua q.id)) =
          pyUpper (pyStrip q.correct_answer) then q.marks else 0))
    ∧ (List.lookup q.id ua = none →
        ((evaluate_exam_answers qs ua resp).evaluations[i]?).map
          (fun e => e.marks_obtained) = some (some 0)) := by
  have hdata : (evalPass ua qs).1[i]? = some ((mkEntry ua q).1) := by
    rw [evalPass_getElem ua qs i, hq]
    rfl
  rw [mkEntry_mcq ua q hty hca] at hdata
  have hpres := evaluate_getElem_not_deferred qs ua resp i _ hdata rfl
  rw [hpres]
  constructor
  · rfl
  · intro hnone
    have hua : getAnswer ua q.id = [] := by
      unfold getAnswer
      rw [hnone]
      rfl
    have hC : ¬ (pyUpper (pyStrip (getAnswer ua q.id)) =
        pyUpper (pyStrip q.correct_answer)) := by
      rw [hua]
      intro hEq
      apply hca
      have hlen := congrArg List.length hEq
      rw [pyUpper, pyUpper, List.length_map, List.length_map] at hlen
      have : pyStrip q.correct_answer = [] :=
        List.eq_nil_of_length_eq_zero (by simpa [pyStrip] using hlen.symm)
      exact this
    simp [hC]

/-- Witness for C1: scenario B, the letter submitted in lower case. -/
theorem C1_witness :
    ([mcqQ] : List Question)[0]? = some mcqQ
    ∧ mcqQ.qtype = ("mcq").data
    ∧ pyStrip mcqQ.correct_answer ≠ []
    ∧ ((evaluate_exam_answers [mcqQ] [(1, ("c").data)]
          (GradingOutcome.parsed [])).evaluations[0]?).map
        (fun e => e.marks_obtained) =
      some (some (if pyUpper (pyStrip (getAnswer [(1, ("c").data)] mcqQ.id)) =
          pyUpper (pyStrip mcqQ.correct_answer) then mcqQ.marks else 0)) :=
  ⟨rfl, rfl, by decide,
   (C1_mcq_graded_locally [mcqQ] [(1, ("c").data)] (GradingOutcome.parsed [])
      0 mcqQ rfl rfl (by decide)).1⟩

/-- C4: when the batch grading response fails to parse or decode, every
still-deferred entry receives exactly 60 percent of its total marks if the
user's answer text is non-empty and zero otherwise, together with the
generic feedback string, and its deferred flag is cleared. -/
theorem C4_fallback_sixty_percent (qs : List Question) (ua : AnswerRecord)
    (resp : GradingOutcome)
    (hresp : resp = GradingOutcome.noJson ∨ resp = GradingOutcome.decodeError)
    (i : Nat) (e : EvalEntry)
    (he : (evalPass ua qs).1[i]? = some e)
    (hflag : e.needs_ai_evaluation = true) :
    ∃ efin, (evaluate_exam_answers qs ua resp).evaluations[i]? = some efin
      ∧ efin.marks_obtained =
          some (if e.user_answer ≠ [] then e.total_marks * 0.6 else 0)
      ∧ efin.feedback = some partialCreditFeedback
      ∧ efin.needs_ai_evaluation = false := by
  have key : ∀ s : List Char,
      (evaluate_exam_answers qs ua resp).evaluations =
        (evalPass ua qs).1.map (fallbackUpd s) →
      ∃ efin, (evaluate_exam_answers qs ua resp).evaluations[i]? = some efin
        ∧ efin.marks_obtained =
            some (if e.user_answer ≠ [] then e.total_marks * 0.6 else 0)
        ∧ efin.feedback = some partialCreditFeedback
        ∧ efin.needs_ai_evaluation = false := by
    intro s hev
    refine ⟨fallbackUpd s e, ?_, ?_, ?_, ?_⟩
    · rw [hev, List.getElem?_map, he]
      rfl
    · rw [fallbackUpd_of_flag s e hflag]
      rfl
    · rw [fallbackUpd_of_flag s e hflag]
    · rw [fallbackUpd_of_flag s e hflag]
  rcases hresp with hr | hr <;> subst hr
  · exact key _ (evaluate_fallback_fields qs ua _ _ (Or.inl ⟨rfl, rfl⟩)).1
  · exact key _ (evaluate_fallback_fields qs ua _ _ (Or.inr ⟨rfl, rfl⟩)).1

/-- Witness for C4: scenario C — a three-mark short question with a
non-empty answer under a raising grading call gets 1.8 marks and the
generic feedback. -/
theorem C4_witness :
    (GradingOutcome.decodeError = GradingOutcome.noJson ∨
      GradingOutcome.decodeError = GradingOutcome.decodeError)
    ∧ (evalPass wAnswers [shortQ]).1[0]? = some wShortEntry
    ∧ wShortEntry.needs_ai_evaluation = true
    ∧ (∃ efin, (evaluate_exam_answers [shortQ] wAnswers
          GradingOutcome.decodeError).evaluations[0]? = some efin
        ∧ efin.marks_obtained = some (if wShortEntry.user_answer ≠ []
            then wShortEntry.total_marks * 0.6 else 0)
        ∧ efin.feedback = some partialCreditFeedback
        ∧ efin.needs_ai_evaluation = false)
    ∧ (if wShortEntry.user_answer ≠ [] then wShortEntry.total_marks * 0.6
        else 0) = 1.8 :=
  ⟨Or.inr rfl, rfl, rfl,
   C4_fallback_sixty_percent [shortQ] wAnswers GradingOutcome.decodeError
     (Or.inr rfl) 0 wShortEntry rfl rfl,
   by
     show (3 : Rat) * 0.6 = 1.8
     norm_num⟩

/-- A five-mark short question used in the C5 counterexample. -/
def fiveQ : Question := ⟨1, ("short").data, ("Q").data, 5, [], []⟩

/-- A successfully parsed batch response that echoes the same question id
twice. -/
def dupResp : GradingOutcome :=
  GradingOutcome.parsed [⟨1, some 2, none, none⟩, ⟨1, some 2, none, none⟩]

/-- Counterexample to C2: a batch response that parses successfully but
echoes back no evaluations (`parsed []`, i.e. the decoded object held an
empty evaluations list) leaves the short question's entry in the deferred
state with no `marks_obtained` — the fallback only runs on parse failure,
so an entry not echoed back after a successful parse is never caught. -/
theorem C2_counterexample :
    ((evaluate_exam_answers [shortQ] [(2, ("x").data)]
        (GradingOutcome.parsed [])).evaluations.map
      (fun e => (e.needs_ai_evaluation, e.marks_obtained))) = [(true, none)] :=
  rfl

/-- C2 amended: when the batch grading response fails to parse or decode,
the fallback does catch every deferred entry, so every entry ends with its
flag cleared and a final `marks_obtained`; after a successful parse,
entries the model does not echo back stay deferred (see the
counterexample). -/
theorem C2_amended_fallback_totality (qs : List Question) (ua : AnswerRecord)
    (resp : GradingOutcome)
    (hresp : resp = GradingOutcome.noJson ∨ resp = GradingOutcome.decodeError) :
    ∀ e ∈ (evaluate_exam_answers qs ua resp).evaluations,
      e.needs_ai_evaluation = false ∧ e.marks_obtained ≠ none := by
  rcases hresp with hr | hr <;> subst hr
  · intro e he
    rw [(evaluate_fallback_fields qs ua _ _ (Or.inl ⟨rfl, rfl⟩)).1] at he
    exact map_fallbackUpd_totality qs ua _ e he
  · intro e he
    rw [(evaluate_fallback_fields qs ua _ _ (Or.inr ⟨rfl, rfl⟩)).1] at he
    exact map_fallbackUpd_totality qs ua _ e he

/-- Witness for the amended C2 on a concrete failed grading call. -/
theorem C2_witness :
    (GradingOutcome.noJson = GradingOutcome.noJson ∨
      GradingOutcome.noJson = GradingOutcome.decodeError)
    ∧ ∀ e ∈ (evaluate_exam_answers [shortQ] wAnswers
        GradingOutcome.noJson).evaluations,
      e.needs_ai_evaluation = false ∧ e.marks_obtained ≠ none :=
  ⟨Or.inl rfl,
   C2_amended_fallback_totality [shortQ] wAnswers GradingOutcome.noJson
     (Or.inl rfl)⟩

/-- Counterexample to C3: the reconciliation accepts the model-returned
`marks_obtained` verbatim, with no clamping — a returned value of 100 for a
three-mark question lands in the entry as is, violating
`marks_obtained ≤ question.marks`. -/
theorem C3_counterexample :
    ((evaluate_exam_answers [shortQ] [(2, ("x").data)]
        (GradingOutcome.parsed [⟨2, some 100, none, none⟩])).evaluations.map
      (fun e => (e.marks_obtained, e.total_marks))) = [(some 100, 3)]
    ∧ ¬ ((100 : Rat) ≤ 3) :=
  ⟨rfl, by norm_num⟩

/-- C3 amended: on the locally graded paths — mcq grading and the fallback
heuristic — every defined `marks_obtained` does lie in `[0, total_marks]`
(given non-negative question marks); a value returned by a successfully
parsed batch response is accepted as a float without clamping and may lie
outside that range (see the counterexample). -/
theorem C3_amended_bounds (qs : List Question) (ua : AnswerRecord)
    (resp : GradingOutcome)
    (hmarks : ∀ q ∈ qs, 0 ≤ q.marks)
    (hresp : resp = GradingOutcome.noJson ∨ resp = GradingOutcome.decodeError) :
    ∀ e ∈ (evaluate_exam_answers qs ua resp).evaluations, ∀ m : Rat,
      e.marks_obtained = some m → 0 ≤ m ∧ m ≤ e.total_marks := by
  have key : ∀ (s : List Char) (e : EvalEntry),
      e ∈ ((evalPass ua qs).1.map (fallbackUpd s)) → ∀ m : Rat,
      e.marks_obtained = some m → 0 ≤ m ∧ m ≤ e.total_marks := by
    intro s e he m hm
    obtain ⟨e₀, he₀, rfl⟩ := List.mem_map.mp he
    obtain ⟨q, hq, he₀q⟩ := evalPass_mem_exists ua qs e₀ he₀
    have htot0 : 0 ≤ e₀.total_marks := by
      rw [he₀q, mkEntry_total]
      exact hmarks q hq
    by_cases hf : e₀.needs_ai_evaluation = true
    · rw [fallbackUpd_of_flag s e₀ hf] at hm ⊢
      have hm' : m = fallbackMarks e₀ := (Option.some.inj hm).symm
      subst hm'
      exact fallbackMarks_bounds e₀ htot0
    · have hf' : e₀.needs_ai_evaluation = false := by simpa using hf
      rw [fallbackUpd_of_not_flag s e₀ hf'] at hm ⊢
      rcases evalPass_unflagged_some ua qs e₀ he₀ hf' with h0 | h0 <;>
        rw [h0] at hm
      · have hm' : m = 0 := (Option.some.inj hm).symm
        subst hm'
        exact ⟨le_refl 0, htot0⟩
      · have hm' : m = e₀.total_marks := (Option.some.inj hm).symm
        subst hm'
        exact ⟨htot0, le_refl _⟩
  rcases hresp with hr | hr <;> subst hr
  · intro e he
    rw [(evaluate_fallback_fields qs ua _ _ (Or.inl ⟨rfl, rfl⟩)).1] at he
    exact key _ e he
  · intro e he
    rw [(evaluate_fallback_fields qs ua _ _ (Or.inr ⟨rfl, rfl⟩)).1] at he
    exact key _ e he

/-- Witness for the amended C3 on a concrete failed grading call. -/
theorem C3_witness :
    (∀ q ∈ [shortQ], 0 ≤ q.marks)
    ∧ (GradingOutcome.decodeError = GradingOutcome.noJson ∨
        GradingOutcome.decodeError = GradingOutcome.decodeError)
    ∧ ∀ e ∈ (evaluate_exam_answers [shortQ] wAnswers
        GradingOutcome.decodeError).evaluations, ∀ m : Rat,
      e.marks_obtained = some m → 0 ≤ m ∧ m ≤ e.total_marks :=
  ⟨by decide, Or.inr rfl,
   C3_amended_bounds [shortQ] wAnswers GradingOutcome.decodeError
     (by decide) (Or.inr rfl)⟩

/-- Counterexample to C5: `obtained_marks` is incremented before the
matching deferred entry is looked up, so a parsed response that echoes the
same question id twice adds its marks twice while only the first echo
updates an entry — `obtained_marks` is 4 but the entries sum to 2. -/
theorem C5_counterexample :
    (evaluate_exam_answers [fiveQ] [(1, ("x").data)] dupResp).obtained_marks = 4
    ∧ sumObtained (evaluate_exam_answers [fiveQ] [(1, ("x").data)]
        dupResp).evaluations = 2
    ∧ (evaluate_exam_answers [fiveQ] [(1, ("x").data)] dupResp).obtained_marks ≠
        sumObtained (evaluate_exam_answers [fiveQ] [(1, ("x").data)]
          dupResp).evaluations := by
  have h1 : (evaluate_exam_answers [fiveQ] [(1, ("x").data)]
      dupResp).obtained_marks = 0 + 0 + 2 + 2 := rfl
  have h2 : sumObtained (evaluate_exam_answers [fiveQ] [(1, ("x").data)]
      dupResp).evaluations = 2 + 0 := rfl
  refine ⟨?_, ?_, ?_⟩
  · rw [h1]
    norm_num
  · rw [h2]
    norm_num
  · rw [h1, h2]
    norm_num

/-- C5 amended: `total_marks` always equals the sum of `total_marks` over
the entries; `obtained_marks` equals the sum of the entries'
`marks_obtained` on the fallback paths (and trivially when nothing was
deferred), but a successfully parsed response with unmatched or duplicate
question ids adds marks to `obtained_marks` that no entry records (see the
counterexample). -/
theorem C5_amended_sums (qs : List Question) (ua : AnswerRecord)
    (resp : GradingOutcome) :
    (evaluate_exam_answers qs ua resp).total_marks =
      sumTotal (evaluate_exam_answers qs ua resp).evaluations
    ∧ ((resp = GradingOutcome.noJson ∨ resp = GradingOutcome.decodeError) →
        (evaluate_exam_answers qs ua resp).obtained_marks =
          sumObtained (evaluate_exam_answers qs ua resp).evaluations) := by
  constructor
  · rw [evaluate_total, evalPass_total ua qs]
    unfold sumTotal
    rw [evaluate_map_total]
  · intro hresp
    rcases hresp with hr | hr <;> subst hr
    · obtain ⟨hev, hob⟩ := evaluate_fallback_fields qs ua _ _ (Or.inl ⟨rfl, rfl⟩)
      rw [hev, hob,
        sumObtained_map_fallbackUpd _ _ (evalPass_flagged_none ua qs),
        evalPass_obtained ua qs]
    · obtain ⟨hev, hob⟩ := evaluate_fallback_fields qs ua _ _ (Or.inr ⟨rfl, rfl⟩)
      rw [hev, hob,
        sumObtained_map_fallbackUpd _ _ (evalPass_flagged_none ua qs),
        evalPass_obtained ua qs]

/-- Witness for the amended C5 on a concrete failed grading call. -/
theorem C5_witness :
    (GradingOutcome.noJson = GradingOutcome.noJson ∨
      GradingOutcome.noJson = GradingOutcome.decodeError)
    ∧ (evaluate_exam_answers [shortQ] wAnswers
        GradingOutcome.noJson).obtained_marks =
      sumObtained (evaluate_exam_answers [shortQ] wAnswers
        GradingOutcome.noJson).evaluations :=
  ⟨Or.inl rfl,
   (C5_amended_sums [shortQ] wAnswers GradingOutcome.noJson).2 (Or.inl rfl)⟩
